import Mathlib

/-!
Shallow embedding of `src/Image/src/image/Image.py`: the `rgba` color
dataclass, the `Image` class (pixel buffer, bounds checking, `get_pixel`,
`set_pixel`, `clear`), and the two drawing algorithms (`line`, `rectangle`).

Modelling conventions:
  * Python `int` channels and coordinates are Lean `Int`.  The non-`int`
    channel case (floats, strings) of `rgba.__post_init__` is outside the
    embedding; out-of-range integers cover the claims under study.
  * The numpy `uint8` buffer `self._rgba_data` of shape `(height, width, 4)`
    is modelled as a total function `Int × Int → Rgba4` indexed by `(x, y)`
    together with the `width`/`height` fields; a write stores each channel
    modulo 256, mirroring numpy's unsafe cast of an integer sequence into a
    `uint8` array (values wrap, no error).
  * numpy indexing `self._rgba_data[y, x]` raises `IndexError` when
    `y >= height` or `x >= width`; after `_check_bounds` both coordinates are
    nonnegative, so the negative-index wrapping of numpy is unreachable.
  * Exceptions are modelled with `Except PyError`; `Image.line`, which can
    leave behind the writes performed before an exception, returns the
    mutated image together with an optional error.
-/

namespace ImageLib

/-- RGBA 4-tuple as handed around by the Python code. -/
abbrev Rgba4 := Int × Int × Int × Int

/-- Every channel is an integer in `[0, 255]` (fits a `uint8` unchanged). -/
def Rgba4Valid (c : Rgba4) : Prop :=
  0 ≤ c.1 ∧ c.1 ≤ 255 ∧ 0 ≤ c.2.1 ∧ c.2.1 ≤ 255 ∧
  0 ≤ c.2.2.1 ∧ c.2.2.1 ≤ 255 ∧ 0 ≤ c.2.2.2 ∧ c.2.2.2 ≤ 255

instance (c : Rgba4) : Decidable (Rgba4Valid c) := by
  unfold Rgba4Valid; infer_instance

/-- numpy's unsafe cast of an integer into a `uint8` cell: wrap modulo 256. -/
def toU8 (v : Int) : Int := v % 256

/-- Channel-wise `uint8` wrap applied by every buffer write. -/
def wrap4 (c : Rgba4) : Rgba4 :=
  (toU8 c.1, toU8 c.2.1, toU8 c.2.2.1, toU8 c.2.2.2)

/-- Python exceptions raised by the module, carrying the data their
messages are built from. -/
inductive PyError where
  /-- `ValueError` from `rgba.__post_init__`, naming the offending component. -/
  | colorValueError (component : String)
  /-- `TypeError` from `Image._validate_rgba`'s wildcard case. -/
  | colorTypeError (typeName : String)
  /-- `IndexError` from `Image._check_bounds`; the message interpolates
  `x`, `self.width`, `y`, `self.height`. -/
  | boundsIndexError (x width y height : Int)
  /-- `IndexError` raised by numpy itself when an index reaches past the
  end of an axis of `self._rgba_data`. -/
  | numpyIndexError
  /-- `IndexError` re-raised inside `Image.line`; the message interpolates
  the pixel coordinates `x`, `y`. -/
  | lineIndexError (x y : Int)
  /-- numpy rejecting `self._rgba_data[:] = color` in `Image.clear` when
  `color` is not a length-4 sequence (broadcast/conversion failure). -/
  | npAssignError
  deriving DecidableEq, Repr

/-- Which of the modelled exceptions are `IndexError`-class. -/
def PyError.isIndexErr : PyError → Bool
  | .boundsIndexError _ _ _ _ => true
  | .numpyIndexError => true
  | .lineIndexError _ _ => true
  | _ => false

/-- The `rgba` dataclass: four integer channels. -/
structure rgba where
  r : Int
  g : Int
  b : Int
  a : Int
  deriving DecidableEq, Repr

/-- `rgba.as_tuple`. -/
def rgba.as_tuple (c : rgba) : Rgba4 := (c.r, c.g, c.b, c.a)

/-- Constructing an `rgba`: the dataclass `__init__` followed by
`__post_init__`, which walks the components in order `r`, `g`, `b`, `a`
and raises `ValueError` at the first one outside `[0, 255]`. -/
def rgba.make (r g b a : Int) : Except PyError rgba :=
  if ¬(0 ≤ r ∧ r ≤ 255) then .error (.colorValueError "r")
  else if ¬(0 ≤ g ∧ g ≤ 255) then .error (.colorValueError "g")
  else if ¬(0 ≤ b ∧ b ≤ 255) then .error (.colorValueError "b")
  else if ¬(0 ≤ a ∧ a ≤ 255) then .error (.colorValueError "a")
  else .ok ⟨r, g, b, a⟩

/-- The shapes a Python caller can pass where the code expects a color:
`None`, an `rgba` instance, a 3-tuple, a 4-tuple, or anything else
(represented by the name of its type, which only the error message uses). -/
inductive ColorArg where
  | none
  | color (c : rgba)
  | tuple3 (r g b : Int)
  | tuple4 (r g b a : Int)
  | other (typeName : String)
  deriving DecidableEq, Repr

/-- View a 4-tuple as the Python tuple argument it is passed around as. -/
def ColorArg.ofTuple (c : Rgba4) : ColorArg :=
  .tuple4 c.1 c.2.1 c.2.2.1 c.2.2.2

/-- `Image._validate_rgba`: the `match` statement over the color argument.
`None` becomes opaque white, an `rgba` instance and a 4-tuple are passed
through positionally, a 3-tuple gets alpha 255, anything else raises
`TypeError`.  No branch inspects the channel values. -/
def validate_rgba : ColorArg → Except PyError Rgba4
  | .none => .ok (255, 255, 255, 255)
  | .color c => .ok (c.r, c.g, c.b, c.a)
  | .tuple3 r g b => .ok (r, g, b, 255)
  | .tuple4 r g b a => .ok (r, g, b, a)
  | .other t => .error (.colorTypeError t)

/-- The `Image` class: `_width`, `_height`, and the pixel buffer
`_rgba_data`, modelled as a total function from `(x, y)` to the stored
RGBA tuple. -/
structure Image where
  width : Int
  height : Int
  data : Int × Int → Rgba4

/-- A throwaway image used as the default of `exImg`. -/
def emptyImage : Image := ⟨0, 0, fun _ => (0, 0, 0, 0)⟩

/-- Whether an `Except` carries a value (the call returned normally). -/
def exceptOk {α : Type} : Except PyError α → Bool
  | .ok _ => true
  | .error _ => false

/-- The image a call returned, or `d` when it raised. -/
def exImg (e : Except PyError Image) (d : Image) : Image :=
  match e with
  | .ok i => i
  | .error _ => d

/-- `self._rgba_data[y, x] = v`: store `v` (wrapped to `uint8`) at `(x, y)`. -/
def writePix (img : Image) (x y : Int) (v : Rgba4) : Image :=
  { img with data := fun p => if p = (x, y) then wrap4 v else img.data p }

/-- `Image.__init__`: validate the fill color, then
`np.full((height, width, 4), fill, dtype=np.uint8)`. -/
def Image.init (width height : Int) (fill_color : ColorArg) :
    Except PyError Image :=
  (validate_rgba fill_color).map fun fill =>
    ⟨width, height, fun _ => wrap4 fill⟩

/-- `Image._check_bounds`: raise `IndexError` unless
`0 <= x <= self.width and 0 <= y <= self.height` (inclusive upper bounds). -/
def check_bounds (img : Image) (x y : Int) : Except PyError Unit :=
  if ¬(0 ≤ x ∧ x ≤ img.width ∧ 0 ≤ y ∧ y ≤ img.height) then
    .error (.boundsIndexError x img.width y img.height)
  else .ok ()

/-- `Image.get_pixel`: `_check_bounds`, then read `self._rgba_data[y, x]`
(numpy raises its own `IndexError` when the coordinate equals the size of
its axis, the one case the inclusive check lets through). -/
def Image.get_pixel (img : Image) (x y : Int) : Except PyError Rgba4 :=
  match check_bounds img x y with
  | .error e => .error e
  | .ok _ =>
      if x < img.width ∧ y < img.height then .ok (img.data (x, y))
      else .error .numpyIndexError

/-- `Image.set_pixel`: `_check_bounds`, then
`self._rgba_data[y, x] = self._validate_rgba(value)` — Python evaluates the
right-hand side before the indexed store, so a `TypeError` from
`_validate_rgba` precedes numpy's own `IndexError`. -/
def Image.set_pixel (img : Image) (x y : Int) (value : ColorArg) :
    Except PyError Image :=
  match check_bounds img x y with
  | .error e => .error e
  | .ok _ =>
      match validate_rgba value with
      | .error e => .error e
      | .ok v =>
          if x < img.width ∧ y < img.height then .ok (writePix img x y v)
          else .error .numpyIndexError

/-- `Image.clear`: `self._rgba_data[:] = color`, with no `_validate_rgba`
call.  numpy broadcasts a length-4 sequence across the `(height, width, 4)`
buffer; a 3-tuple (shape mismatch), an `rgba` instance, `None`, or any
other shape makes the assignment itself raise. -/
def Image.clear (img : Image) (color : ColorArg) : Except PyError Image :=
  match color with
  | .tuple4 r g b a => .ok { img with data := fun _ => wrap4 (r, g, b, a) }
  | _ => .error .npAssignError

/-- The bulk write `self._rgba_data[y1:y2+1, x1:x2+1] = fill`: every cell
of the inclusive range gets the fill (wrapped to `uint8`), the rest of the
buffer is untouched. -/
def rectFilled (img : Image) (x1 y1 x2 y2 : Int) (fill : Rgba4) : Image :=
  { img with data := fun p =>
      if x1 ≤ p.1 ∧ p.1 ≤ x2 ∧ y1 ≤ p.2 ∧ p.2 ≤ y2 then wrap4 fill
      else img.data p }

/-- `Image.rectangle`: validate the color, sort the two corners, clip to
`[0, width-1] × [0, height-1]`, return early when the clipped range is
empty, otherwise bulk-assign the fill over the inclusive range. -/
def Image.rectangle (img : Image) (tx ty bx bY : Int) (color : ColorArg) :
    Except PyError Image :=
  match validate_rgba color with
  | .error e => .error e
  | .ok fill =>
      let x1 := max 0 (min tx bx)
      let y1 := max 0 (min ty bY)
      let x2 := min (img.width - 1) (max tx bx)
      let y2 := min (img.height - 1) (max ty bY)
      if x1 > x2 ∨ y1 > y2 then .ok img
      else .ok (rectFilled img x1 y1 x2 y2 fill)

/-- One iteration's coordinate/deviation update, shared by both loops of
`Image.line` (written there inline after the `set_pixel` call):
`major += sMaj; deviation -= dMin; if deviation < 0: minor += sMin;
deviation += dMaj`.  State is `(major, minor, deviation)`. -/
def bresStep (sMaj sMin dMin dMaj : Int) (s : Int × Int × Int) :
    Int × Int × Int :=
  let d := s.2.2 - dMin
  if d < 0 then (s.1 + sMaj, s.2.1 + sMin, d + dMaj)
  else (s.1 + sMaj, s.2.1, d)

/-- The `(major, minor)` pairs visited by `n` iterations of a Bresenham
loop started in state `s` (each iteration plots, then steps). -/
def bresPts (sMaj sMin dMin dMaj : Int) : Nat → Int × Int × Int → List (Int × Int)
  | 0, _ => []
  | n + 1, s => (s.1, s.2.1) :: bresPts sMaj sMin dMin dMaj n (bresStep sMaj sMin dMin dMaj s)

/-- The `dx > dy` loop of `Image.line` (major axis x): each iteration
calls `self.set_pixel(x, y, line_color)` — re-raising any `IndexError` as
one naming the pixel, which aborts the loop with the image as mutated so
far — then advances the state.  State is `(x, y, deviation)`. -/
def lineLoopX (c : Rgba4) (sxStep syStep dy dx : Int) :
    Nat → Image → Int × Int × Int → Image × Option PyError
  | 0, img, _ => (img, Option.none)
  | n + 1, img, s =>
      match Image.set_pixel img s.1 s.2.1 (ColorArg.ofTuple c) with
      | .error _ => (img, Option.some (.lineIndexError s.1 s.2.1))
      | .ok img' =>
          lineLoopX c sxStep syStep dy dx n img' (bresStep sxStep syStep dy dx s)

/-- The `else` loop of `Image.line` (major axis y, covering `dx <= dy`):
symmetric to `lineLoopX` with the roles of x and y swapped.  State is
`(y, x, deviation)`; the plot is `self.set_pixel(x, y, line_color)`. -/
def lineLoopY (c : Rgba4) (sxStep syStep dx dy : Int) :
    Nat → Image → Int × Int × Int → Image × Option PyError
  | 0, img, _ => (img, Option.none)
  | n + 1, img, s =>
      match Image.set_pixel img s.2.1 s.1 (ColorArg.ofTuple c) with
      | .error _ => (img, Option.some (.lineIndexError s.2.1 s.1))
      | .ok img' =>
          lineLoopY c sxStep syStep dx dy n img' (bresStep syStep sxStep dx dy s)

/-- `Image.line`: validate the color, compute `dx = abs(sx - ex)`,
`dy = abs(sy - ey)`, the step directions, and run the branch picked by
`dx > dy` for `major + 1` iterations from `deviation = major // 2`.
Returns the image (with whatever was plotted before any exception) and
the exception, if one was raised. -/
def Image.line (img : Image) (sx sy ex ey : Int) (color : ColorArg) :
    Image × Option PyError :=
  match validate_rgba color with
  | .error e => (img, Option.some e)
  | .ok c =>
      let dx : Int := (sx - ex).natAbs
      let dy : Int := (sy - ey).natAbs
      let sxStep : Int := if sx < ex then 1 else -1
      let syStep : Int := if sy < ey then 1 else -1
      if dx > dy then
        lineLoopX c sxStep syStep dy dx ((sx - ex).natAbs + 1) img (sx, sy, dx / 2)
      else
        lineLoopY c sxStep syStep dx dy ((sy - ey).natAbs + 1) img (sy, sx, dy / 2)

/-- The `(x, y)` pixels `Image.line` visits, in iteration order (the y-major
branch generates `(y, x)` states, hence the swap). -/
def linePoints (sx sy ex ey : Int) : List (Int × Int) :=
  let dx : Int := (sx - ex).natAbs
  let dy : Int := (sy - ey).natAbs
  let sxStep : Int := if sx < ex then 1 else -1
  let syStep : Int := if sy < ey then 1 else -1
  if dx > dy then
    bresPts sxStep syStep dy dx ((sx - ex).natAbs + 1) (sx, sy, dx / 2)
  else
    (bresPts syStep sxStep dx dy ((sy - ey).natAbs + 1) (sy, sx, dy / 2)).map Prod.swap

/-- Write the color at every point of the list, in order. -/
def writeList (img : Image) (ps : List (Int × Int)) (c : Rgba4) : Image :=
  ps.foldl (fun i p => writePix i p.1 p.2 c) img

/-- `(x, y)` is a valid buffer index for a `w × h` image: the half-open
ranges that make both `_check_bounds` and the numpy store succeed. -/
def strictIn (w h : Int) (p : Int × Int) : Prop :=
  0 ≤ p.1 ∧ p.1 < w ∧ 0 ≤ p.2 ∧ p.2 < h

instance (w h : Int) (p : Int × Int) : Decidable (strictIn w h p) := by
  unfold strictIn; infer_instance

/-- Two pixels are 8-adjacent: distinct, and one step apart on each axis
at most (Chebyshev distance exactly 1). -/
def adjacent8 (p q : Int × Int) : Prop :=
  max |q.1 - p.1| |q.2 - p.2| = 1

/-- A plain white `w × h` test image (what `Image.__init__` builds for
`fill_color=None`). -/
def whiteImg (w h : Int) : Image := ⟨w, h, fun _ => (255, 255, 255, 255)⟩

theorem wrap4_valid {c : Rgba4} (h : Rgba4Valid c) : wrap4 c = c := by
  obtain ⟨r, g, b, a⟩ := c
  simp only [Rgba4Valid] at h
  simp only [wrap4, toU8, Prod.mk.injEq]
  refine ⟨?_, ?_, ?_, ?_⟩ <;> omega

/-- Claim C1 counterexample: `_validate_rgba` passes an out-of-range
3-tuple channel straight through with no error, `set_pixel` then succeeds,
and the buffer holds the value wrapped to `uint8` (300 → 44) — no
`ColorValidationError`-class failure at the point of the call. -/
theorem c1_tuple_channel_cex :
    validate_rgba (ColorArg.tuple3 300 0 0) = Except.ok (300, 0, 0, 255) ∧
    exceptOk (Image.set_pixel (whiteImg 2 2) 0 0 (ColorArg.tuple3 300 0 0)) = true ∧
    (exImg (Image.set_pixel (whiteImg 2 2) 0 0 (ColorArg.tuple3 300 0 0))
        emptyImage).data (0, 0) = (44, 0, 0, 255) := by
  refine ⟨rfl, rfl, by decide⟩

/-- Claim C1 (amended): channel-range validation happens only when an
`rgba` value is constructed — `rgba.make` succeeds exactly when every
channel is in `[0, 255]` and reports component `r` exactly when `r` is out
of range — while `_validate_rgba` passes the channels of a 3-tuple or
4-tuple through unvalidated (it only defaults the alpha of a 3-tuple), so
tuple color arguments with out-of-range channels are not rejected. -/
theorem c1_color_validation (r g b a : Int) :
    validate_rgba (ColorArg.tuple3 r g b) = Except.ok (r, g, b, 255) ∧
    validate_rgba (ColorArg.tuple4 r g b a) = Except.ok (r, g, b, a) ∧
    (rgba.make r g b a = Except.ok ⟨r, g, b, a⟩ ↔
      (0 ≤ r ∧ r ≤ 255) ∧ (0 ≤ g ∧ g ≤ 255) ∧ (0 ≤ b ∧ b ≤ 255) ∧
        (0 ≤ a ∧ a ≤ 255)) ∧
    (rgba.make r g b a = Except.error (PyError.colorValueError "r") ↔
      ¬(0 ≤ r ∧ r ≤ 255)) := by
  refine ⟨rfl, rfl, ?_, ?_⟩ <;>
    · unfold rgba.make
      split_ifs <;> simp_all

/-- Claim C2 counterexample: `clear` does not route its argument through
`_validate_rgba` — a 3-tuple (accepted by every other color-taking
operation) and an `rgba` value both make the raw numpy assignment fail
instead of overwriting the buffer with the normalized color. -/
theorem c2_clear_no_normalize_cex :
    Image.clear (whiteImg 2 2) (ColorArg.tuple3 1 2 3) =
      Except.error PyError.npAssignError ∧
    exceptOk (Image.clear (whiteImg 2 2) (ColorArg.color ⟨10, 20, 30, 255⟩)) =
      false := by
  exact ⟨rfl, rfl⟩

/-- Claim C2 (amended): `clear` assigns the color to the buffer directly,
with no normalization/validation step: a 4-tuple overwrites every pixel of
the buffer with it (wrapped to `uint8`), while a 3-tuple, an `rgba` value,
or `None` makes the numpy assignment itself fail. -/
theorem c2_clear_raw_assign (img : Image) (r g b a : Int) (c : rgba)
    (p : Int × Int) :
    exceptOk (Image.clear img (ColorArg.tuple4 r g b a)) = true ∧
    (exImg (Image.clear img (ColorArg.tuple4 r g b a)) emptyImage).data p =
      wrap4 (r, g, b, a) ∧
    exceptOk (Image.clear img (ColorArg.tuple3 r g b)) = false ∧
    exceptOk (Image.clear img (ColorArg.color c)) = false ∧
    exceptOk (Image.clear img ColorArg.none) = false := by
  exact ⟨rfl, rfl, rfl, rfl, rfl⟩

/-- Claim C3: `_check_bounds` accepts `(x, y)` iff
`0 ≤ x ≤ width ∧ 0 ≤ y ≤ height` (upper bounds inclusive), and exactly
when that fails, `get_pixel` and `set_pixel` raise the
`IndexError`-class error whose message carries the offending coordinate
together with the image's width and height. -/
theorem c3_inclusive_bounds_check (img : Image) (x y : Int) (v : ColorArg) :
    (check_bounds img x y = Except.ok () ↔
      (0 ≤ x ∧ x ≤ img.width ∧ 0 ≤ y ∧ y ≤ img.height)) ∧
    (Image.get_pixel img x y =
        Except.error (PyError.boundsIndexError x img.width y img.height) ↔
      ¬(0 ≤ x ∧ x ≤ img.width ∧ 0 ≤ y ∧ y ≤ img.height)) ∧
    (Image.set_pixel img x y v =
        Except.error (PyError.boundsIndexError x img.width y img.height) ↔
      ¬(0 ≤ x ∧ x ≤ img.width ∧ 0 ≤ y ∧ y ≤ img.height)) ∧
    (PyError.boundsIndexError x img.width y img.height).isIndexErr = true := by
  refine ⟨?_, ?_, ?_, rfl⟩
  · unfold check_bounds
    split_ifs with h <;> simp_all
  · unfold Image.get_pixel check_bounds
    split_ifs with h h2 <;> simp_all
  · unfold Image.set_pixel check_bounds
    cases v <;> split_ifs <;> simp_all [validate_rgba]

/-- Reading a pixel at a valid buffer index returns the stored value. -/
theorem get_pixel_in (img : Image) (x y : Int)
    (hx : 0 ≤ x ∧ x < img.width) (hy : 0 ≤ y ∧ y < img.height) :
    Image.get_pixel img x y = Except.ok (img.data (x, y)) := by
  have hb : ¬¬(0 ≤ x ∧ x ≤ img.width ∧ 0 ≤ y ∧ y ≤ img.height) :=
    not_not_intro (by omega)
  unfold Image.get_pixel check_bounds
  rw [if_neg hb, if_pos ⟨hx.2, hy.2⟩]

/-- Claim C7: with a valid color and corners (in either order) whose
clipped range is nonempty, `rectangle` succeeds and the resulting pixel at
`p` is the fill color exactly when `p` lies in the inclusive
sorted-and-clipped range, and the original value otherwise. -/
theorem c7_rectangle_fill (img : Image) (tx ty bx bY : Int) (col : ColorArg)
    (fill : Rgba4) (p : Int × Int)
    (hv : validate_rgba col = Except.ok fill) (hval : Rgba4Valid fill)
    (hne : max 0 (min tx bx) ≤ min (img.width - 1) (max tx bx) ∧
           max 0 (min ty bY) ≤ min (img.height - 1) (max ty bY)) :
    exceptOk (Image.rectangle img tx ty bx bY col) = true ∧
    (exImg (Image.rectangle img tx ty bx bY col) emptyImage).data p =
      (if max 0 (min tx bx) ≤ p.1 ∧ p.1 ≤ min (img.width - 1) (max tx bx) ∧
          max 0 (min ty bY) ≤ p.2 ∧ p.2 ≤ min (img.height - 1) (max ty bY)
       then fill else img.data p) := by
  have hcond : ¬(max 0 (min tx bx) > min (img.width - 1) (max tx bx) ∨
      max 0 (min ty bY) > min (img.height - 1) (max ty bY)) := by omega
  have hres : Image.rectangle img tx ty bx bY col =
      Except.ok (rectFilled img (max 0 (min tx bx)) (max 0 (min ty bY))
        (min (img.width - 1) (max tx bx)) (min (img.height - 1) (max ty bY))
        fill) := by
    unfold Image.rectangle
    rw [hv]
    dsimp only
    rw [if_neg hcond]
  rw [hres]
  refine ⟨rfl, ?_⟩
  dsimp only [exImg, rectFilled]
  simp only [wrap4_valid hval]

/-- Claim C7 witness: corners given in reversed order on a white 10 × 10
image; the pixel (3, 4) inside the clipped range turns red. -/
theorem c7_rectangle_fill_witness :
    exceptOk (Image.rectangle (whiteImg 10 10) 5 6 2 3
      (ColorArg.tuple4 255 0 0 255)) = true ∧
    (exImg (Image.rectangle (whiteImg 10 10) 5 6 2 3
        (ColorArg.tuple4 255 0 0 255)) emptyImage).data (3, 4) =
      (255, 0, 0, 255) := by
  have h := c7_rectangle_fill (whiteImg 10 10) 5 6 2 3
    (ColorArg.tuple4 255 0 0 255) (255, 0, 0, 255) (3, 4) rfl (by decide)
    (by constructor <;> decide)
  refine ⟨h.1, ?_⟩
  rw [h.2]
  decide

/-- Claim C8: with a valid color and a clipped range that is empty (the
rectangle misses the image entirely, whichever order the corners come in),
`rectangle` is a silent no-op: it returns normally and the image — every
pixel of it — is unchanged. -/
theorem c8_rectangle_clip_noop (img : Image) (tx ty bx bY : Int)
    (col : ColorArg) (fill : Rgba4)
    (hv : validate_rgba col = Except.ok fill)
    (hout : max 0 (min tx bx) > min (img.width - 1) (max tx bx) ∨
            max 0 (min ty bY) > min (img.height - 1) (max ty bY)) :
    Image.rectangle img tx ty bx bY col = Except.ok img := by
  unfold Image.rectangle
  rw [hv]
  dsimp only
  rw [if_pos hout]

/-- Claim C8 witness: the rectangle (20,20)–(30,30) misses a 10 × 10 image
and leaves it untouched, raising nothing. -/
theorem c8_rectangle_clip_noop_witness :
    Image.rectangle (whiteImg 10 10) 20 20 30 30
      (ColorArg.tuple4 255 0 0 255) = Except.ok (whiteImg 10 10) :=
  c8_rectangle_clip_noop (whiteImg 10 10) 20 20 30 30
    (ColorArg.tuple4 255 0 0 255) (255, 0, 0, 255) rfl (by left; decide)

/-- Claim C9: a freshly constructed image reads back the normalized fill
color at every in-range coordinate, and with fill `None` it reads back
opaque white. -/
theorem c9_fill_invariant (w h : Int) (fill_color : ColorArg) (c : Rgba4)
    (x y : Int) (hv : validate_rgba fill_color = Except.ok c)
    (hc : Rgba4Valid c) (hx : 0 ≤ x ∧ x < w) (hy : 0 ≤ y ∧ y < h) :
    exceptOk (Image.init w h fill_color) = true ∧
    Image.get_pixel (exImg (Image.init w h fill_color) emptyImage) x y =
      Except.ok c ∧
    Image.get_pixel (exImg (Image.init w h ColorArg.none) emptyImage) x y =
      Except.ok (255, 255, 255, 255) := by
  have hinit : Image.init w h fill_color =
      Except.ok ⟨w, h, fun _ => wrap4 c⟩ := by
    unfold Image.init
    rw [hv]
    rfl
  have hwhite : Image.init w h ColorArg.none =
      Except.ok ⟨w, h, fun _ => wrap4 (255, 255, 255, 255)⟩ := rfl
  rw [hinit, hwhite]
  refine ⟨rfl, ?_, ?_⟩
  · show Image.get_pixel ⟨w, h, fun _ => wrap4 c⟩ x y = Except.ok c
    rw [get_pixel_in ⟨w, h, fun _ => wrap4 c⟩ x y hx hy]
    exact congrArg Except.ok (wrap4_valid hc)
  · show Image.get_pixel ⟨w, h, fun _ => wrap4 (255, 255, 255, 255)⟩ x y =
      Except.ok (255, 255, 255, 255)
    rw [get_pixel_in ⟨w, h, fun _ => wrap4 (255, 255, 255, 255)⟩ x y hx hy]
    exact congrArg Except.ok (wrap4_valid (by decide))

/-- Claim C9 witness: a 2 × 2 image filled from the 3-tuple (1, 2, 3)
reads back (1, 2, 3, 255) at (1, 0), and the default fill is white. -/
theorem c9_fill_invariant_witness :
    exceptOk (Image.init 2 2 (ColorArg.tuple3 1 2 3)) = true ∧
    Image.get_pixel (exImg (Image.init 2 2 (ColorArg.tuple3 1 2 3))
      emptyImage) 1 0 = Except.ok (1, 2, 3, 255) ∧
    Image.get_pixel (exImg (Image.init 2 2 ColorArg.none) emptyImage) 1 0 =
      Except.ok (255, 255, 255, 255) :=
  c9_fill_invariant 2 2 (ColorArg.tuple3 1 2 3) (1, 2, 3, 255) 1 0 rfl
    (by decide) (by decide) (by decide)

theorem bresStep_fst (sMaj sMin dMin dMaj : Int) (s : Int × Int × Int) :
    (bresStep sMaj sMin dMin dMaj s).1 = s.1 + sMaj := by
  unfold bresStep
  dsimp only
  split_ifs <;> rfl

theorem bresStep_minor (sMaj sMin dMin dMaj : Int) (s : Int × Int × Int) :
    (bresStep sMaj sMin dMin dMaj s).2.1 = s.2.1 ∨
    (bresStep sMaj sMin dMin dMaj s).2.1 = s.2.1 + sMin := by
  unfold bresStep
  dsimp only
  split_ifs
  · right; rfl
  · left; rfl

theorem bres_iter_major (sMaj sMin dMin dMaj : Int) (s : Int × Int × Int)
    (k : Nat) :
    ((bresStep sMaj sMin dMin dMaj)^[k] s).1 = s.1 + k * sMaj := by
  induction k with
  | zero => simp
  | succ n ih =>
      rw [Function.iterate_succ_apply', bresStep_fst, ih]
      push_cast
      ring

theorem bres_iter_inv (sMaj sMin dMin dMaj : Int) (h0 : 0 ≤ dMin)
    (h1 : dMin ≤ dMaj) (s : Int × Int × Int)
    (hs : 0 ≤ s.2.2 ∧ s.2.2 < dMaj) (k : Nat) :
    0 ≤ ((bresStep sMaj sMin dMin dMaj)^[k] s).2.2 ∧
    ((bresStep sMaj sMin dMin dMaj)^[k] s).2.2 < dMaj := by
  induction k with
  | zero => simpa using hs
  | succ n ih =>
      rw [Function.iterate_succ_apply']
      set t := (bresStep sMaj sMin dMin dMaj)^[n] s
      unfold bresStep
      dsimp only
      split_ifs with hd <;>
        · dsimp only
          constructor <;> omega

theorem bres_iter_dev (sMaj sMin dMin dMaj : Int)
    (hb : sMin = 1 ∨ sMin = -1) (s : Int × Int × Int) (k : Nat) :
    ((bresStep sMaj sMin dMin dMaj)^[k] s).2.2 =
      s.2.2 - k * dMin +
        (sMin * (((bresStep sMaj sMin dMin dMaj)^[k] s).2.1 - s.2.1)) * dMaj := by
  induction k with
  | zero => simp
  | succ n ih =>
      rw [Function.iterate_succ_apply']
      set t := (bresStep sMaj sMin dMin dMaj)^[n] s
      unfold bresStep
      dsimp only
      split_ifs with hd
      · rcases hb with h | h <;> subst h <;> push_cast <;> linear_combination ih
      · rcases hb with h | h <;> subst h <;> push_cast <;> linear_combination ih

theorem bres_final_minor (sMaj sMin dMin dMaj : Int)
    (hb : sMin = 1 ∨ sMin = -1) (h0 : 0 ≤ dMin) (h1 : dMin ≤ dMaj)
    (hM : 0 < dMaj) (s : Int × Int × Int)
    (hs : 0 ≤ s.2.2 ∧ s.2.2 < dMaj) :
    ((bresStep sMaj sMin dMin dMaj)^[dMaj.toNat] s).2.1 =
      s.2.1 + sMin * dMin := by
  have hinv := bres_iter_inv sMaj sMin dMin dMaj h0 h1 s hs dMaj.toNat
  have hdev := bres_iter_dev sMaj sMin dMin dMaj hb s dMaj.toNat
  rw [Int.toNat_of_nonneg hM.le] at hdev
  set t := (bresStep sMaj sMin dMin dMaj)^[dMaj.toNat] s
  set M := sMin * (t.2.1 - s.2.1) with hMdef
  have hup : (M - dMin) * dMaj < 1 * dMaj := by nlinarith [hinv.2, hs.1]
  have hlo : (-1 : Int) * dMaj < (M - dMin) * dMaj := by nlinarith [hinv.1, hs.2]
  have hup2 : M - dMin < 1 := lt_of_mul_lt_mul_right (by linarith) hM.le
  have hlo2 : (-1 : Int) < M - dMin := lt_of_mul_lt_mul_right (by linarith) hM.le
  have hMeq : M = dMin := by omega
  rcases hb with h | h <;> subst h
  · have : t.2.1 - s.2.1 = dMin := by rw [hMdef] at hMeq; linarith [hMeq]
    linarith [this]
  · have : -(t.2.1 - s.2.1) = dMin := by rw [hMdef] at hMeq; linarith [hMeq]
    linarith [this]

theorem bresPts_length (sMaj sMin dMin dMaj : Int) :
    ∀ (n : Nat) (s : Int × Int × Int),
      (bresPts sMaj sMin dMin dMaj n s).length = n := by
  intro n
  induction n with
  | zero => intro s; rfl
  | succ m ih =>
      intro s
      show ((s.1, s.2.1) ::
        bresPts sMaj sMin dMin dMaj m (bresStep sMaj sMin dMin dMaj s)).length = m + 1
      rw [List.length_cons, ih]

theorem bresPts_eq_map (sMaj sMin dMin dMaj : Int) :
    ∀ (n : Nat) (s : Int × Int × Int),
      bresPts sMaj sMin dMin dMaj n s =
        (List.range n).map (fun k =>
          (((bresStep sMaj sMin dMin dMaj)^[k] s).1,
           ((bresStep sMaj sMin dMin dMaj)^[k] s).2.1)) := by
  intro n
  induction n with
  | zero => intro s; rfl
  | succ m ih =>
      intro s
      rw [List.range_succ_eq_map, List.map_cons, List.map_map]
      show (s.1, s.2.1) ::
          bresPts sMaj sMin dMin dMaj m (bresStep sMaj sMin dMin dMaj s) = _
      rw [ih (bresStep sMaj sMin dMin dMaj s)]
      congr 1

theorem bresRun_spec (sMaj sMin dMin dMaj : Int)
    (ha : sMaj = 1 ∨ sMaj = -1) (hb : sMin = 1 ∨ sMin = -1)
    (h0 : 0 ≤ dMin) (h1 : dMin ≤ dMaj) (hM : 0 < dMaj)
    (s : Int × Int × Int) (hs : 0 ≤ s.2.2 ∧ s.2.2 < dMaj) :
    (bresPts sMaj sMin dMin dMaj (dMaj.toNat + 1) s).length = dMaj.toNat + 1 ∧
    (s.1, s.2.1) ∈ bresPts sMaj sMin dMin dMaj (dMaj.toNat + 1) s ∧
    (s.1 + dMaj * sMaj, s.2.1 + sMin * dMin) ∈
      bresPts sMaj sMin dMin dMaj (dMaj.toNat + 1) s ∧
    (bresPts sMaj sMin dMin dMaj (dMaj.toNat + 1) s).Nodup ∧
    List.Chain' adjacent8 (bresPts sMaj sMin dMin dMaj (dMaj.toNat + 1) s) := by
  refine ⟨bresPts_length _ _ _ _ _ _, ?_, ?_, ?_, ?_⟩
  · show (s.1, s.2.1) ∈ (s.1, s.2.1) ::
      bresPts sMaj sMin dMin dMaj dMaj.toNat (bresStep sMaj sMin dMin dMaj s)
    exact List.mem_cons_self _ _
  · rw [bresPts_eq_map]
    apply List.mem_map.mpr
    refine ⟨dMaj.toNat, List.mem_range.mpr (Nat.lt_succ_self _), ?_⟩
    have hmaj := bres_iter_major sMaj sMin dMin dMaj s dMaj.toNat
    have hmin := bres_final_minor sMaj sMin dMin dMaj hb h0 h1 hM s hs
    rw [Int.toNat_of_nonneg hM.le] at hmaj
    rw [hmaj, hmin]
  · rw [bresPts_eq_map]
    refine List.Nodup.map ?_ (List.nodup_range _)
    intro k1 k2 hkk
    have hfst := congrArg Prod.fst hkk
    dsimp only at hfst
    rw [bres_iter_major, bres_iter_major] at hfst
    rcases ha with h | h <;> subst h <;> omega
  · rw [bresPts_eq_map, List.chain'_map, List.chain'_range_succ]
    intro m hm
    rw [Function.iterate_succ_apply']
    set t := (bresStep sMaj sMin dMin dMaj)^[m] s
    unfold adjacent8
    dsimp only
    rw [bresStep_fst]
    rcases bresStep_minor sMaj sMin dMin dMaj t with h2 | h2 <;> rw [h2] <;>
      rcases ha with ha1 | ha1 <;> rcases hb with hb1 | hb1 <;>
        subst ha1 <;> subst hb1 <;>
          simp only [add_sub_cancel_left, sub_self] <;> decide

theorem linePoints_spec (sx sy ex ey : Int) :
    (linePoints sx sy ex ey).length =
      max (sx - ex).natAbs (sy - ey).natAbs + 1 ∧
    (sx, sy) ∈ linePoints sx sy ex ey ∧
    (ex, ey) ∈ linePoints sx sy ex ey ∧
    (linePoints sx sy ex ey).Nodup ∧
    List.Chain' adjacent8 (linePoints sx sy ex ey) := by
  by_cases hxy : (((sx - ex).natAbs : Int)) > ((sy - ey).natAbs : Int)
  · have hpts : linePoints sx sy ex ey =
        bresPts (if sx < ex then (1:Int) else -1) (if sy < ey then (1:Int) else -1)
          ((sy - ey).natAbs : Int) ((sx - ex).natAbs : Int)
          ((sx - ex).natAbs + 1)
          (sx, sy, ((sx - ex).natAbs : Int) / 2) := by
      unfold linePoints
      dsimp only
      rw [if_pos hxy]
    have hrun := bresRun_spec (if sx < ex then (1:Int) else -1)
      (if sy < ey then (1:Int) else -1) ((sy - ey).natAbs : Int)
      ((sx - ex).natAbs : Int)
      (by split_ifs <;> simp) (by split_ifs <;> simp)
      (Int.natCast_nonneg _) hxy.le
      (by omega)
      (sx, sy, ((sx - ex).natAbs : Int) / 2)
      (by constructor <;> dsimp only <;> omega)
    rw [Int.toNat_natCast] at hrun
    dsimp only at hrun
    obtain ⟨hlen, hstart, hend, hnodup, hchain⟩ := hrun
    have hex : sx + ((sx - ex).natAbs : Int) * (if sx < ex then (1:Int) else -1)
        = ex := by
      split_ifs with h
      · rw [mul_one]; omega
      · rw [mul_neg_one]; omega
    have hey : sy + (if sy < ey then (1:Int) else -1) * ((sy - ey).natAbs : Int)
        = ey := by
      split_ifs with h
      · rw [one_mul]; omega
      · rw [neg_one_mul]; omega
    rw [hex, hey] at hend
    rw [hpts]
    refine ⟨?_, hstart, hend, hnodup, hchain⟩
    rw [hlen]
    omega
  · have hpts : linePoints sx sy ex ey =
        (bresPts (if sy < ey then (1:Int) else -1) (if sx < ex then (1:Int) else -1)
          ((sx - ex).natAbs : Int) ((sy - ey).natAbs : Int)
          ((sy - ey).natAbs + 1)
          (sy, sx, ((sy - ey).natAbs : Int) / 2)).map Prod.swap := by
      unfold linePoints
      dsimp only
      rw [if_neg hxy]
    by_cases hy0 : (sy - ey).natAbs = 0
    · have hsx : sx = ex := by omega
      have hsy : sy = ey := by omega
      have hsingle : linePoints sx sy ex ey = [(sx, sy)] := by
        rw [hpts, hy0]
        rfl
      rw [hsingle]
      refine ⟨by simp; omega, List.mem_singleton.mpr rfl, ?_,
        List.nodup_singleton _, List.chain'_singleton _⟩
      rw [← hsx, ← hsy]
      exact List.mem_singleton.mpr rfl
    · have hrun := bresRun_spec (if sy < ey then (1:Int) else -1)
        (if sx < ex then (1:Int) else -1) ((sx - ex).natAbs : Int)
        ((sy - ey).natAbs : Int)
        (by split_ifs <;> simp) (by split_ifs <;> simp)
        (Int.natCast_nonneg _) (by omega)
        (by omega)
        (sy, sx, ((sy - ey).natAbs : Int) / 2)
        (by constructor <;> dsimp only <;> omega)
      rw [Int.toNat_natCast] at hrun
      dsimp only at hrun
      obtain ⟨hlen, hstart, hend, hnodup, hchain⟩ := hrun
      have hey : sy + ((sy - ey).natAbs : Int) * (if sy < ey then (1:Int) else -1)
          = ey := by
        split_ifs with h
        · rw [mul_one]; omega
        · rw [mul_neg_one]; omega
      have hex : sx + (if sx < ex then (1:Int) else -1) * ((sx - ex).natAbs : Int)
          = ex := by
        split_ifs with h
        · rw [one_mul]; omega
        · rw [neg_one_mul]; omega
      rw [hey, hex] at hend
      rw [hpts]
      refine ⟨?_, ?_, ?_, ?_, ?_⟩
      · rw [List.length_map, hlen]; omega
      · exact List.mem_map.mpr ⟨(sy, sx), hstart, rfl⟩
      · exact List.mem_map.mpr ⟨(ey, ex), hend, rfl⟩
      · exact hnodup.map Prod.swap_injective
      · rw [List.chain'_map]
        refine hchain.imp ?_
        intro a b hadj
        unfold adjacent8 at hadj ⊢
        dsimp only [Prod.swap]
        rw [max_comm]
        exact hadj

theorem validate_ofTuple (c : Rgba4) :
    validate_rgba (ColorArg.ofTuple c) = Except.ok c := rfl

theorem set_pixel_in (img : Image) (x y : Int) (c : Rgba4)
    (h : strictIn img.width img.height (x, y)) :
    Image.set_pixel img x y (ColorArg.ofTuple c) =
      Except.ok (writePix img x y c) := by
  have h2 : x < img.width := h.2.1
  have h4 : y < img.height := h.2.2.2
  have h1 : 0 ≤ x := h.1
  have h3 : 0 ≤ y := h.2.2.1
  have hb : ¬¬(0 ≤ x ∧ x ≤ img.width ∧ 0 ≤ y ∧ y ≤ img.height) :=
    not_not_intro (by constructor <;> omega)
  unfold Image.set_pixel check_bounds
  rw [if_neg hb, validate_ofTuple]
  show (if x < img.width ∧ y < img.height then Except.ok (writePix img x y c)
    else Except.error PyError.numpyIndexError) = Except.ok (writePix img x y c)
  rw [if_pos ⟨h2, h4⟩]

theorem set_pixel_out (img : Image) (x y : Int) (c : Rgba4)
    (h : ¬ strictIn img.width img.height (x, y)) :
    ∃ e, Image.set_pixel img x y (ColorArg.ofTuple c) = Except.error e := by
  unfold strictIn at h
  dsimp only at h
  unfold Image.set_pixel check_bounds
  by_cases hw : 0 ≤ x ∧ x ≤ img.width ∧ 0 ≤ y ∧ y ≤ img.height
  · rw [if_neg (not_not_intro hw), validate_ofTuple]
    show ∃ e, (if x < img.width ∧ y < img.height
        then Except.ok (writePix img x y c)
        else Except.error PyError.numpyIndexError) = Except.error e
    rw [if_neg (show ¬(x < img.width ∧ y < img.height) by omega)]
    exact ⟨_, rfl⟩
  · rw [if_pos hw]
    exact ⟨_, rfl⟩

theorem writeList_width (c : Rgba4) :
    ∀ (ps : List (Int × Int)) (img : Image),
      (writeList img ps c).width = img.width := by
  intro ps
  induction ps with
  | nil => intro img; rfl
  | cons q rest ih => intro img; exact ih (writePix img q.1 q.2 c)

theorem writeList_height (c : Rgba4) :
    ∀ (ps : List (Int × Int)) (img : Image),
      (writeList img ps c).height = img.height := by
  intro ps
  induction ps with
  | nil => intro img; rfl
  | cons q rest ih => intro img; exact ih (writePix img q.1 q.2 c)

theorem writeList_notMem (c : Rgba4) :
    ∀ (ps : List (Int × Int)) (img : Image) (p : Int × Int), p ∉ ps →
      (writeList img ps c).data p = img.data p := by
  intro ps
  induction ps with
  | nil => intro img p _; rfl
  | cons q rest ih =>
      intro img p hp
      show (writeList (writePix img q.1 q.2 c) rest c).data p = img.data p
      rw [ih (writePix img q.1 q.2 c) p
        (fun hmem => hp (List.mem_cons_of_mem _ hmem))]
      unfold writePix
      dsimp only
      rw [if_neg]
      intro heq
      rw [Prod.mk.eta] at heq
      exact hp (heq ▸ List.mem_cons_self _ _)

theorem writeList_mem (c : Rgba4) :
    ∀ (ps : List (Int × Int)) (img : Image) (p : Int × Int), p ∈ ps →
      (writeList img ps c).data p = wrap4 c := by
  intro ps
  induction ps with
  | nil => intro img p hp; exact absurd hp (List.not_mem_nil _)
  | cons q rest ih =>
      intro img p hp
      show (writeList (writePix img q.1 q.2 c) rest c).data p = wrap4 c
      by_cases hr : p ∈ rest
      · exact ih (writePix img q.1 q.2 c) p hr
      · have hq : p = q := by
          rcases List.mem_cons.mp hp with h | h
          · exact h
          · exact absurd h hr
        rw [writeList_notMem c rest (writePix img q.1 q.2 c) p hr]
        unfold writePix
        dsimp only
        rw [if_pos (by rw [hq, Prod.mk.eta])]

theorem lineLoopX_ok (c : Rgba4) (a b dMin dMaj : Int) :
    ∀ (n : Nat) (s : Int × Int × Int) (img : Image),
      (∀ p ∈ bresPts a b dMin dMaj n s, strictIn img.width img.height p) →
      lineLoopX c a b dMin dMaj n img s =
        (writeList img (bresPts a b dMin dMaj n s) c, Option.none) := by
  intro n
  induction n with
  | zero => intro s img _; rfl
  | succ m ih =>
      intro s img hin
      have hhead : strictIn img.width img.height (s.1, s.2.1) :=
        hin _ (List.mem_cons_self _ _)
      have hok := set_pixel_in img s.1 s.2.1 c hhead
      unfold lineLoopX
      rw [hok]
      show lineLoopX c a b dMin dMaj m (writePix img s.1 s.2.1 c)
          (bresStep a b dMin dMaj s) =
        (writeList img (bresPts a b dMin dMaj (m + 1) s) c, Option.none)
      rw [ih (bresStep a b dMin dMaj s) (writePix img s.1 s.2.1 c)
        (fun p hp => hin p (List.mem_cons_of_mem _ hp))]
      rfl

theorem lineLoopY_ok (c : Rgba4) (a b dMin dMaj : Int) :
    ∀ (n : Nat) (s : Int × Int × Int) (img : Image),
      (∀ p ∈ (bresPts b a dMin dMaj n s).map Prod.swap,
        strictIn img.width img.height p) →
      lineLoopY c a b dMin dMaj n img s =
        (writeList img ((bresPts b a dMin dMaj n s).map Prod.swap) c,
          Option.none) := by
  intro n
  induction n with
  | zero => intro s img _; rfl
  | succ m ih =>
      intro s img hin
      have hhead : strictIn img.width img.height (s.2.1, s.1) :=
        hin _ (List.mem_cons_self _ _)
      have hok := set_pixel_in img s.2.1 s.1 c hhead
      unfold lineLoopY
      rw [hok]
      show lineLoopY c a b dMin dMaj m (writePix img s.2.1 s.1 c)
          (bresStep b a dMin dMaj s) =
        (writeList img ((bresPts b a dMin dMaj (m + 1) s).map Prod.swap) c,
          Option.none)
      rw [ih (bresStep b a dMin dMaj s) (writePix img s.2.1 s.1 c)
        (fun p hp => hin p (List.mem_cons_of_mem _ hp))]
      rfl

theorem lineLoopX_err (c : Rgba4) (a b dMin dMaj : Int) :
    ∀ (n : Nat) (s : Int × Int × Int) (img : Image)
      (good : List (Int × Int)) (bad : Int × Int) (rest : List (Int × Int)),
      bresPts a b dMin dMaj n s = good ++ bad :: rest →
      (∀ p ∈ good, strictIn img.width img.height p) →
      ¬ strictIn img.width img.height bad →
      lineLoopX c a b dMin dMaj n img s =
        (writeList img good c,
          Option.some (PyError.lineIndexError bad.1 bad.2)) := by
  intro n
  induction n with
  | zero =>
      intro s img good bad rest hsplit _ _
      exact absurd hsplit (by cases good <;> simp [bresPts])
  | succ m ih =>
      intro s img good bad rest hsplit hgood hbad
      have hsplit2 : (s.1, s.2.1) ::
          bresPts a b dMin dMaj m (bresStep a b dMin dMaj s) =
          good ++ bad :: rest := hsplit
      cases good with
      | nil =>
          have hb1 : (s.1, s.2.1) = bad := by
            simp only [List.nil_append] at hsplit2
            exact List.head_eq_of_cons_eq hsplit2
          have hbadOut : ¬ strictIn img.width img.height (s.1, s.2.1) := by
            rw [hb1]; exact hbad
          obtain ⟨e, he⟩ := set_pixel_out img s.1 s.2.1 c hbadOut
          unfold lineLoopX
          rw [he]
          have hb1' : bad.1 = s.1 ∧ bad.2 = s.2.1 := by
            rw [← hb1]; exact ⟨rfl, rfl⟩
          rw [hb1'.1, hb1'.2]
          rfl
      | cons g gs =>
          have hg : (s.1, s.2.1) = g ∧
              bresPts a b dMin dMaj m (bresStep a b dMin dMaj s) =
                gs ++ bad :: rest := by
            rw [List.cons_append] at hsplit2
            exact ⟨List.head_eq_of_cons_eq hsplit2,
              List.tail_eq_of_cons_eq hsplit2⟩
          have hheadIn : strictIn img.width img.height (s.1, s.2.1) := by
            rw [hg.1]; exact hgood g (List.mem_cons_self _ _)
          have hok := set_pixel_in img s.1 s.2.1 c hheadIn
          unfold lineLoopX
          rw [hok]
          show lineLoopX c a b dMin dMaj m (writePix img s.1 s.2.1 c)
              (bresStep a b dMin dMaj s) =
            (writeList img (g :: gs) c,
              Option.some (PyError.lineIndexError bad.1 bad.2))
          rw [ih (bresStep a b dMin dMaj s) (writePix img s.1 s.2.1 c)
            gs bad rest hg.2
            (fun p hp => hgood p (List.mem_cons_of_mem _ hp)) hbad]
          rw [← hg.1]
          rfl

theorem lineLoopY_err (c : Rgba4) (a b dMin dMaj : Int) :
    ∀ (n : Nat) (s : Int × Int × Int) (img : Image)
      (good : List (Int × Int)) (bad : Int × Int) (rest : List (Int × Int)),
      (bresPts b a dMin dMaj n s).map Prod.swap = good ++ bad :: rest →
      (∀ p ∈ good, strictIn img.width img.height p) →
      ¬ strictIn img.width img.height bad →
      lineLoopY c a b dMin dMaj n img s =
        (writeList img good c,
          Option.some (PyError.lineIndexError bad.1 bad.2)) := by
  intro n
  induction n with
  | zero =>
      intro s img good bad rest hsplit _ _
      exact absurd hsplit (by cases good <;> simp [bresPts])
  | succ m ih =>
      intro s img good bad rest hsplit hgood hbad
      have hsplit2 : (s.2.1, s.1) ::
          (bresPts b a dMin dMaj m (bresStep b a dMin dMaj s)).map Prod.swap =
          good ++ bad :: rest := hsplit
      cases good with
      | nil =>
          have hb1 : (s.2.1, s.1) = bad := by
            simp only [List.nil_append] at hsplit2
            exact List.head_eq_of_cons_eq hsplit2
          have hbadOut : ¬ strictIn img.width img.height (s.2.1, s.1) := by
            rw [hb1]; exact hbad
          obtain ⟨e, he⟩ := set_pixel_out img s.2.1 s.1 c hbadOut
          unfold lineLoopY
          rw [he]
          have hb1' : bad.1 = s.2.1 ∧ bad.2 = s.1 := by
            rw [← hb1]; exact ⟨rfl, rfl⟩
          rw [hb1'.1, hb1'.2]
          rfl
      | cons g gs =>
          have hg : (s.2.1, s.1) = g ∧
              (bresPts b a dMin dMaj m (bresStep b a dMin dMaj s)).map
                Prod.swap = gs ++ bad :: rest := by
            rw [List.cons_append] at hsplit2
            exact ⟨List.head_eq_of_cons_eq hsplit2,
              List.tail_eq_of_cons_eq hsplit2⟩
          have hheadIn : strictIn img.width img.height (s.2.1, s.1) := by
            rw [hg.1]; exact hgood g (List.mem_cons_self _ _)
          have hok := set_pixel_in img s.2.1 s.1 c hheadIn
          unfold lineLoopY
          rw [hok]
          show lineLoopY c a b dMin dMaj m (writePix img s.2.1 s.1 c)
              (bresStep b a dMin dMaj s) =
            (writeList img (g :: gs) c,
              Option.some (PyError.lineIndexError bad.1 bad.2))
          rw [ih (bresStep b a dMin dMaj s) (writePix img s.2.1 s.1 c)
            gs bad rest hg.2
            (fun p hp => hgood p (List.mem_cons_of_mem _ hp)) hbad]
          rw [← hg.1]
          rfl

theorem line_ok (img : Image) (sx sy ex ey : Int) (c : Rgba4)
    (hin : ∀ p ∈ linePoints sx sy ex ey, strictIn img.width img.height p) :
    Image.line img sx sy ex ey (ColorArg.ofTuple c) =
      (writeList img (linePoints sx sy ex ey) c, Option.none) := by
  by_cases hxy : (((sx - ex).natAbs : Int)) > ((sy - ey).natAbs : Int)
  · have hpts : linePoints sx sy ex ey =
        bresPts (if sx < ex then (1:Int) else -1) (if sy < ey then (1:Int) else -1)
          ((sy - ey).natAbs : Int) ((sx - ex).natAbs : Int)
          ((sx - ex).natAbs + 1)
          (sx, sy, ((sx - ex).natAbs : Int) / 2) := by
      unfold linePoints
      dsimp only
      rw [if_pos hxy]
    have hline : Image.line img sx sy ex ey (ColorArg.ofTuple c) =
        lineLoopX c (if sx < ex then (1:Int) else -1)
          (if sy < ey then (1:Int) else -1)
          ((sy - ey).natAbs : Int) ((sx - ex).natAbs : Int)
          ((sx - ex).natAbs + 1) img
          (sx, sy, ((sx - ex).natAbs : Int) / 2) := by
      unfold Image.line
      rw [validate_ofTuple]
      dsimp only
      rw [if_pos hxy]
    rw [hpts] at hin
    rw [hline, hpts]
    exact lineLoopX_ok c _ _ _ _ _ _ img hin
  · have hpts : linePoints sx sy ex ey =
        (bresPts (if sy < ey then (1:Int) else -1) (if sx < ex then (1:Int) else -1)
          ((sx - ex).natAbs : Int) ((sy - ey).natAbs : Int)
          ((sy - ey).natAbs + 1)
          (sy, sx, ((sy - ey).natAbs : Int) / 2)).map Prod.swap := by
      unfold linePoints
      dsimp only
      rw [if_neg hxy]
    have hline : Image.line img sx sy ex ey (ColorArg.ofTuple c) =
        lineLoopY c (if sx < ex then (1:Int) else -1)
          (if sy < ey then (1:Int) else -1)
          ((sx - ex).natAbs : Int) ((sy - ey).natAbs : Int)
          ((sy - ey).natAbs + 1) img
          (sy, sx, ((sy - ey).natAbs : Int) / 2) := by
      unfold Image.line
      rw [validate_ofTuple]
      dsimp only
      rw [if_neg hxy]
    rw [hpts] at hin
    rw [hline, hpts]
    exact lineLoopY_ok c _ _ _ _ _ _ img hin

theorem line_err (img : Image) (sx sy ex ey : Int) (c : Rgba4)
    (good : List (Int × Int)) (bad : Int × Int) (rest : List (Int × Int))
    (hsplit : linePoints sx sy ex ey = good ++ bad :: rest)
    (hgood : ∀ p ∈ good, strictIn img.width img.height p)
    (hbad : ¬ strictIn img.width img.height bad) :
    Image.line img sx sy ex ey (ColorArg.ofTuple c) =
      (writeList img good c,
        Option.some (PyError.lineIndexError bad.1 bad.2)) := by
  by_cases hxy : (((sx - ex).natAbs : Int)) > ((sy - ey).natAbs : Int)
  · have hpts : linePoints sx sy ex ey =
        bresPts (if sx < ex then (1:Int) else -1) (if sy < ey then (1:Int) else -1)
          ((sy - ey).natAbs : Int) ((sx - ex).natAbs : Int)
          ((sx - ex).natAbs + 1)
          (sx, sy, ((sx - ex).natAbs : Int) / 2) := by
      unfold linePoints
      dsimp only
      rw [if_pos hxy]
    have hline : Image.line img sx sy ex ey (ColorArg.ofTuple c) =
        lineLoopX c (if sx < ex then (1:Int) else -1)
          (if sy < ey then (1:Int) else -1)
          ((sy - ey).natAbs : Int) ((sx - ex).natAbs : Int)
          ((sx - ex).natAbs + 1) img
          (sx, sy, ((sx - ex).natAbs : Int) / 2) := by
      unfold Image.line
      rw [validate_ofTuple]
      dsimp only
      rw [if_pos hxy]
    rw [hpts] at hsplit
    rw [hline]
    exact lineLoopX_err c _ _ _ _ _ _ img good bad rest hsplit hgood hbad
  · have hpts : linePoints sx sy ex ey =
        (bresPts (if sy < ey then (1:Int) else -1) (if sx < ex then (1:Int) else -1)
          ((sx - ex).natAbs : Int) ((sy - ey).natAbs : Int)
          ((sy - ey).natAbs + 1)
          (sy, sx, ((sy - ey).natAbs : Int) / 2)).map Prod.swap := by
      unfold linePoints
      dsimp only
      rw [if_neg hxy]
    have hline : Image.line img sx sy ex ey (ColorArg.ofTuple c) =
        lineLoopY c (if sx < ex then (1:Int) else -1)
          (if sy < ey then (1:Int) else -1)
          ((sx - ex).natAbs : Int) ((sy - ey).natAbs : Int)
          ((sy - ey).natAbs + 1) img
          (sy, sx, ((sy - ey).natAbs : Int) / 2) := by
      unfold Image.line
      rw [validate_ofTuple]
      dsimp only
      rw [if_neg hxy]
    rw [hpts] at hsplit
    rw [hline]
    exact lineLoopY_err c _ _ _ _ _ _ img good bad rest hsplit hgood hbad

/-- Claim C4: when every rasterized point of the line is inside the image,
`line` raises nothing, and the visited point list has exactly
`max(|x0-x1|, |y0-y1|) + 1` points, all distinct, containing both
endpoints, consecutive points at Chebyshev distance exactly 1
(single-pixel-wide, 8-connected, no gaps); every visited pixel holds the
color afterwards and every other pixel is unchanged. -/
theorem c4_line_inbounds (img : Image) (sx sy ex ey : Int) (c : Rgba4)
    (hval : Rgba4Valid c)
    (hin : ∀ p ∈ linePoints sx sy ex ey, strictIn img.width img.height p) :
    (Image.line img sx sy ex ey (ColorArg.ofTuple c)).2 = Option.none ∧
    (linePoints sx sy ex ey).length =
      max (sx - ex).natAbs (sy - ey).natAbs + 1 ∧
    (linePoints sx sy ex ey).Nodup ∧
    (sx, sy) ∈ linePoints sx sy ex ey ∧
    (ex, ey) ∈ linePoints sx sy ex ey ∧
    List.Chain' adjacent8 (linePoints sx sy ex ey) ∧
    (∀ p ∈ linePoints sx sy ex ey,
      (Image.line img sx sy ex ey (ColorArg.ofTuple c)).1.data p = c) ∧
    (∀ p, p ∉ linePoints sx sy ex ey →
      (Image.line img sx sy ex ey (ColorArg.ofTuple c)).1.data p =
        img.data p) := by
  obtain ⟨hlen, hstart, hend, hnodup, hchain⟩ := linePoints_spec sx sy ex ey
  rw [line_ok img sx sy ex ey c hin]
  dsimp only
  refine ⟨rfl, hlen, hnodup, hstart, hend, hchain, ?_, ?_⟩
  · intro p hp
    rw [writeList_mem c (linePoints sx sy ex ey) img p hp, wrap4_valid hval]
  · intro p hp
    rw [writeList_notMem c (linePoints sx sy ex ey) img p hp]

/-- Claim C4 witness: the horizontal line (2,5)–(7,5) on a white 10 × 10
image plots 6 pixels, turns (4,5) red and leaves (4,6) white. -/
theorem c4_line_inbounds_witness :
    (Image.line (whiteImg 10 10) 2 5 7 5
      (ColorArg.ofTuple (255, 0, 0, 255))).2 = Option.none ∧
    (linePoints 2 5 7 5).length = 6 ∧
    (Image.line (whiteImg 10 10) 2 5 7 5
        (ColorArg.ofTuple (255, 0, 0, 255))).1.data (4, 5) =
      (255, 0, 0, 255) ∧
    (Image.line (whiteImg 10 10) 2 5 7 5
        (ColorArg.ofTuple (255, 0, 0, 255))).1.data (4, 6) =
      (255, 255, 255, 255) := by
  obtain ⟨h1, h2, h3, h4, h5, h6, h7, h8⟩ :=
    c4_line_inbounds (whiteImg 10 10) 2 5 7 5 (255, 0, 0, 255)
      (by decide) (by decide)
  exact ⟨h1, by rw [h2]; decide, h7 (4, 5) (by decide), h8 (4, 6) (by decide)⟩

/-- Claim C5 counterexample: the line (0,0)–(4,1) and its reverse
(4,1)–(0,0), both fully inside a 6 × 3 image, do not set the same pixels:
the forward direction plots (2,0) and not (2,1), the reverse plots (2,1)
and not (2,0). -/
theorem c5_direction_cex :
    ((2 : Int), (0 : Int)) ∈ linePoints 0 0 4 1 ∧
    ((2 : Int), (1 : Int)) ∉ linePoints 0 0 4 1 ∧
    ((2 : Int), (1 : Int)) ∈ linePoints 4 1 0 0 ∧
    ((2 : Int), (0 : Int)) ∉ linePoints 4 1 0 0 ∧
    (Image.line (whiteImg 6 3) 0 0 4 1
        (ColorArg.ofTuple (255, 0, 0, 255))).1.data (2, 0) =
      (255, 0, 0, 255) ∧
    (Image.line (whiteImg 6 3) 0 0 4 1
        (ColorArg.ofTuple (255, 0, 0, 255))).1.data (2, 1) =
      (255, 255, 255, 255) ∧
    (Image.line (whiteImg 6 3) 4 1 0 0
        (ColorArg.ofTuple (255, 0, 0, 255))).1.data (2, 1) =
      (255, 0, 0, 255) ∧
    (Image.line (whiteImg 6 3) 4 1 0 0
        (ColorArg.ofTuple (255, 0, 0, 255))).1.data (2, 0) =
      (255, 255, 255, 255) := by
  decide

/-- Claim C5 (amended): swapping the endpoints yields a line with the same
number of plotted pixels that still covers both endpoints, but not
necessarily the same pixel set — the Bresenham error term can round the
minor axis differently in the two directions. -/
theorem c5_reverse_same_endpoints (sx sy ex ey : Int) :
    (linePoints ex ey sx sy).length = (linePoints sx sy ex ey).length ∧
    (sx, sy) ∈ linePoints ex ey sx sy ∧
    (ex, ey) ∈ linePoints ex ey sx sy := by
  obtain ⟨l1, _, _, _, _⟩ := linePoints_spec sx sy ex ey
  obtain ⟨l2, m3, m4, _, _⟩ := linePoints_spec ex ey sx sy
  refine ⟨?_, m4, m3⟩
  rw [l1, l2]
  omega

/-- Claim C6: when the visited point list splits as an in-bounds part,
a first out-of-bounds point `bad`, and a remainder, `line` raises the
`IndexError`-class error naming exactly `bad`, and no pixel outside the
in-bounds part written before the failure is modified — in particular
none of the points after `bad` in iteration order is plotted. -/
theorem c6_line_abort (img : Image) (sx sy ex ey : Int) (c : Rgba4)
    (good : List (Int × Int)) (bad : Int × Int) (rest : List (Int × Int))
    (hsplit : linePoints sx sy ex ey = good ++ bad :: rest)
    (hgood : ∀ p ∈ good, strictIn img.width img.height p)
    (hbad : ¬ strictIn img.width img.height bad) :
    (Image.line img sx sy ex ey (ColorArg.ofTuple c)).2 =
      Option.some (PyError.lineIndexError bad.1 bad.2) ∧
    (PyError.lineIndexError bad.1 bad.2).isIndexErr = true ∧
    (∀ p, p ∉ good →
      (Image.line img sx sy ex ey (ColorArg.ofTuple c)).1.data p =
        img.data p) := by
  rw [line_err img sx sy ex ey c good bad rest hsplit hgood hbad]
  dsimp only
  exact ⟨rfl, rfl, fun p hp => writeList_notMem c good img p hp⟩

/-- Claim C6 witness: the line (1,1)–(5,1) on a 3 × 3 image fails at the
first out-of-range pixel (3,1) and never plots the later point (4,1). -/
theorem c6_line_abort_witness :
    (Image.line (whiteImg 3 3) 1 1 5 1
      (ColorArg.ofTuple (255, 0, 0, 255))).2 =
      Option.some (PyError.lineIndexError 3 1) ∧
    (Image.line (whiteImg 3 3) 1 1 5 1
        (ColorArg.ofTuple (255, 0, 0, 255))).1.data (4, 1) =
      (255, 255, 255, 255) := by
  obtain ⟨h1, h2, h3⟩ := c6_line_abort (whiteImg 3 3) 1 1 5 1 (255, 0, 0, 255)
    [(1, 1), (2, 1)] (3, 1) [(4, 1), (5, 1)] (by decide) (by decide) (by decide)
  exact ⟨h1, h3 (4, 1) (by decide)⟩

/-- Claim C10: when `line` fails at an out-of-bounds point, the in-bounds
points visited before it keep the line color in the returned buffer — a
partial write followed by the failure, not a rollback to the pre-call
state. -/
theorem c10_line_partial_write (img : Image) (sx sy ex ey : Int) (c : Rgba4)
    (hval : Rgba4Valid c)
    (good : List (Int × Int)) (bad : Int × Int) (rest : List (Int × Int))
    (hsplit : linePoints sx sy ex ey = good ++ bad :: rest)
    (hgood : ∀ p ∈ good, strictIn img.width img.height p)
    (hbad : ¬ strictIn img.width img.height bad) :
    (Image.line img sx sy ex ey (ColorArg.ofTuple c)).2 =
      Option.some (PyError.lineIndexError bad.1 bad.2) ∧
    (∀ p ∈ good,
      (Image.line img sx sy ex ey (ColorArg.ofTuple c)).1.data p = c) := by
  rw [line_err img sx sy ex ey c good bad rest hsplit hgood hbad]
  dsimp only
  refine ⟨rfl, fun p hp => ?_⟩
  rw [writeList_mem c good img p hp, wrap4_valid hval]

/-- Claim C10 witness: in the aborted line (1,1)–(5,1) on a 3 × 3 image
the in-bounds pixel (2,1), plotted before the failure, stays red in the
buffer the failed call leaves behind. -/
theorem c10_line_partial_write_witness :
    (Image.line (whiteImg 3 3) 1 1 5 1
      (ColorArg.ofTuple (255, 0, 0, 255))).2 =
      Option.some (PyError.lineIndexError 3 1) ∧
    (Image.line (whiteImg 3 3) 1 1 5 1
        (ColorArg.ofTuple (255, 0, 0, 255))).1.data (2, 1) =
      (255, 0, 0, 255) := by
  obtain ⟨h1, h2⟩ := c10_line_partial_write (whiteImg 3 3) 1 1 5 1
    (255, 0, 0, 255) (by decide) [(1, 1), (2, 1)] (3, 1) [(4, 1), (5, 1)]
    (by decide) (by decide) (by decide)
  exact ⟨h1, h2 (2, 1) (by decide)⟩

end ImageLib
